import Mathlib

/-!
Shallow embedding of the sequential-thinking tracker of this repository
(`services/sequential_thinking_service.py` together with the pydantic models
in `utils/__init__.py`).

Python integers are modelled as `Int`, strings as `String`, lists as `List`,
and the insertion-ordered `dict` collections as association lists.  A raw
tool payload (a Python `dict` of arbitrary JSON-ish values) is modelled as an
association list of `String × Value`, where a later binding of the same key
shadows an earlier one, exactly as repeated `data[snake_key] = value`
assignments do.  Pydantic validation is modelled structurally: a field of
declared type `str` / `int` / `bool` accepts a value of exactly that shape,
`ge=1` constraints are checked where declared, `Optional` fields accept
absence or `None`, and extra keys are ignored.

An important scoping note: pydantic's default LAX mode additionally accepts
some mistyped values by coercion (for example a numeric string such as
`"5"` for an `int` field, or `"true"` / `0` / `1` for a `bool` field), and
the exact coercion tables are version-dependent (the repository pins no
pydantic version; v1 and v2 differ, e.g. on `bool` for `int` fields).  That
coercion is NOT modelled here: the embedded parse functions underapproximate
the real validator's acceptance on mistyped-but-coercible values.  Every
statement below therefore either takes the validation outcome as a
hypothesis, or — where it characterizes the accept/reject boundary itself —
is restricted by `declaredShape` to payloads whose present values already
have the declared structural shape, a domain on which the embedded validator
and pydantic (in any version, lax or strict) agree.
-/

/-- A Python value as it appears in a tool-call payload. -/
inductive Value where
  | vStr (s : String)
  | vInt (n : Int)
  | vBool (b : Bool)
  | vNone
deriving DecidableEq, Repr

/-- `ThoughtData` (utils/__init__.py): the validated unit of input. -/
structure ThoughtData where
  thought : String
  thought_number : Int
  total_thoughts : Int
  next_thought_needed : Bool
  is_revision : Option Bool
  revises_thought : Option Int
  branch_from_thought : Option Int
  branch_id : Option String
  needs_more_thoughts : Option Bool
deriving DecidableEq, Repr

/-- `ThoughtResponse` (utils/__init__.py). -/
structure ThoughtResponse where
  thought_number : Int
  total_thoughts : Int
  next_thought_needed : Bool
  branches : List String
  thought_history_length : Nat
  error : Option String
  status : Option String
deriving DecidableEq, Repr

/-- ASCII `[A-Z]`. -/
def isUpperAZ (c : Char) : Bool := 'A' ≤ c && c ≤ 'Z'

/-- ASCII `[a-z]`. -/
def isLowerAZ (c : Char) : Bool := 'a' ≤ c && c ≤ 'z'

/-- ASCII `[a-z0-9]`. -/
def isLowerDigit (c : Char) : Bool := isLowerAZ c || ('0' ≤ c && c ≤ '9')

/-- First pass of `_camel_to_snake`:
`re.sub('(.)([A-Z][a-z]+)', r'\1_\2', name)` — leftmost non-overlapping
matches, the `[a-z]+` group greedy, scanning resuming after each match.
The fuel argument only serves structural recursion: every step consumes at
least one character, so fuel equal to the list length never runs out. -/
def sub1Fuel : Nat → List Char → List Char
  | 0, l => l
  | _ + 1, [] => []
  | _ + 1, [c] => [c]
  | fuel + 1, c :: u :: rest =>
    if isUpperAZ u && !(rest.takeWhile isLowerAZ).isEmpty then
      c :: '_' :: u :: (rest.takeWhile isLowerAZ ++ sub1Fuel fuel (rest.dropWhile isLowerAZ))
    else
      c :: sub1Fuel fuel (u :: rest)

/-- First regex pass at adequate fuel. -/
def sub1 (l : List Char) : List Char := sub1Fuel l.length l

/-- Second pass of `_camel_to_snake`:
`re.sub('([a-z0-9])([A-Z])', r'\1_\2', s1)`. -/
def sub2 : List Char → List Char
  | [] => []
  | [c] => [c]
  | c :: u :: rest =>
    if isLowerDigit c && isUpperAZ u then
      c :: '_' :: u :: sub2 rest
    else
      c :: sub2 (u :: rest)

/-- `_camel_to_snake` (sequential_thinking_service.py, lines 46-50): the two
regex substitutions followed by `.lower()`. -/
def camel_to_snake (s : String) : String :=
  String.mk ((sub2 (sub1 s.data)).map Char.toLower)

/-- A raw payload: a Python dict as an ordered list of key/value pairs. -/
abbrev RawInput := List (String × Value)

/-- First binding wins (used on a reversed list, so that the LAST binding of
a key in the original payload wins, as for Python dict assignment). -/
def dgetAux (d : List (String × Value)) (k : String) : Option Value :=
  match d with
  | [] => none
  | (k', v) :: rest => if k' = k then some v else dgetAux rest k

/-- Look a key up in a payload; the last binding of the key wins. -/
def dget (d : List (String × Value)) (k : String) : Option Value :=
  dgetAux d.reverse k

/-- The key-normalization loop of `_validate_thought_data`: every key is
passed through `_camel_to_snake`. -/
def normalizeKeys (input : RawInput) : RawInput :=
  input.map (fun kv => (camel_to_snake kv.1, kv.2))

/-- Required `str` pydantic field (no further constraint: the empty string
is accepted). -/
def parseReqStr : Option Value → Option String
  | some (.vStr s) => some s
  | _ => none

/-- Required `int` pydantic field with `ge=1`.  Only a structural integer
is accepted here; pydantic's lax coercion of numeric strings (and, in v1,
of booleans) is not modelled — see the header note. -/
def parseReqIntGe1 : Option Value → Option Int
  | some (.vInt n) => if 1 ≤ n then some n else none
  | _ => none

/-- Required `bool` pydantic field.  Only a structural boolean is accepted
here; pydantic's lax coercion of `0`/`1` and of boolean-like strings is not
modelled — see the header note. -/
def parseReqBool : Option Value → Option Bool
  | some (.vBool b) => some b
  | _ => none

/-- `Optional[bool]` pydantic field (absent and `None` both give `None`). -/
def parseOptBool : Option Value → Option (Option Bool)
  | none => some none
  | some .vNone => some none
  | some (.vBool b) => some (some b)
  | _ => none

/-- `Optional[int]` pydantic field with `ge=1` when present.  As for
`parseReqIntGe1`, lax numeric-string coercion is not modelled. -/
def parseOptIntGe1 : Option Value → Option (Option Int)
  | none => some none
  | some .vNone => some none
  | some (.vInt n) => if 1 ≤ n then some (some n) else none
  | _ => none

/-- `Optional[str]` pydantic field. -/
def parseOptStr : Option Value → Option (Option String)
  | none => some none
  | some .vNone => some none
  | some (.vStr s) => some (some s)
  | _ => none

/-- `ThoughtData(**data)`: pydantic construction from the normalized dict;
`none` is a `ValidationError`.  Extra keys are ignored (pydantic default). -/
def buildThought (d : RawInput) : Option ThoughtData := do
  let th ← parseReqStr (dget d "thought")
  let tn ← parseReqIntGe1 (dget d "thought_number")
  let tt ← parseReqIntGe1 (dget d "total_thoughts")
  let ntn ← parseReqBool (dget d "next_thought_needed")
  let ir ← parseOptBool (dget d "is_revision")
  let rt ← parseOptIntGe1 (dget d "revises_thought")
  let bft ← parseOptIntGe1 (dget d "branch_from_thought")
  let bid ← parseOptStr (dget d "branch_id")
  let nmt ← parseOptBool (dget d "needs_more_thoughts")
  pure ⟨th, tn, tt, ntn, ir, rt, bft, bid, nmt⟩

/-- `_validate_thought_data` (lines 30-44): normalize keys, run pydantic
construction, wrap any failure in a `ValueError` whose message starts with
"Invalid thought data: ". -/
def validate_thought_data (input : RawInput) : Except String ThoughtData :=
  match buildThought (normalizeKeys input) with
  | some t => Except.ok t
  | none => Except.error "Invalid thought data: validation error"

/-- The mutable state of `SequentialThinkingService`: `thought_history` and
the insertion-ordered `branches` dict. -/
structure ServiceState where
  thought_history : List ThoughtData
  branches : List (String × List ThoughtData)
deriving DecidableEq, Repr

/-- The empty state built by `__init__`. -/
def initState : ServiceState := ⟨[], []⟩

/-- First entry with the given key, as for a Python dict (keys are unique in
every reachable state). -/
def blookup (bs : List (String × List ThoughtData)) (k : String) : Option (List ThoughtData) :=
  match bs with
  | [] => none
  | (k', v) :: rest => if k' = k then some v else blookup rest k

/-- `if branch_id not in self.branches: self.branches[branch_id] = []` then
`self.branches[branch_id].append(t)`: append to an existing branch, or create
the entry at the end of the dict. -/
def branchAppend (bs : List (String × List ThoughtData)) (k : String) (t : ThoughtData) :
    List (String × List ThoughtData) :=
  match blookup bs k with
  | some _ => bs.map (fun p => if p.1 = k then (p.1, p.2 ++ [t]) else p)
  | none => bs ++ [(k, [t])]

/-- Python truthiness of an `Optional[int]` (`None` and `0` are falsy). -/
def optIntTruthy : Option Int → Bool
  | none => false
  | some n => decide (n ≠ 0)

/-- Python truthiness of an `Optional[str]` (`None` and `""` are falsy). -/
def optStrTruthy : Option String → Bool
  | none => false
  | some s => decide (s ≠ "")

/-- The branching condition of `process_thought`, line 106:
`if validated_input.branch_from_thought and validated_input.branch_id:`. -/
def branchCond (v : ThoughtData) : Bool :=
  optIntTruthy v.branch_from_thought && optStrTruthy v.branch_id

/-- `process_thought` (lines 84-135): validate, auto-correct
`total_thoughts`, append to history, register the branch when both branch
fields are truthy, and return the response; on a validation failure return
the zeroed failure response and leave the state untouched. -/
def process_thought (st : ServiceState) (input : RawInput) : ServiceState × ThoughtResponse :=
  match validate_thought_data input with
  | Except.error e =>
      (st,
       { thought_number := 0
         total_thoughts := 0
         next_thought_needed := false
         branches := []
         thought_history_length := st.thought_history.length
         error := some e
         status := some "failed" })
  | Except.ok v0 =>
      let v : ThoughtData :=
        if v0.thought_number > v0.total_thoughts then
          { v0 with total_thoughts := v0.thought_number }
        else v0
      let hist := st.thought_history ++ [v]
      let brs :=
        if branchCond v then branchAppend st.branches (v.branch_id.getD "") v
        else st.branches
      (⟨hist, brs⟩,
       { thought_number := v.thought_number
         total_thoughts := v.total_thoughts
         next_thought_needed := v.next_thought_needed
         branches := brs.map (fun p => p.1)
         thought_history_length := hist.length
         error := none
         status := none })

/-- `get_thought_history` (lines 137-139): a copy of the history; in the
value-semantics model the copy is the list itself. -/
def get_thought_history (st : ServiceState) : List ThoughtData :=
  st.thought_history

/-- `get_branches` (lines 141-143), value-semantics view. -/
def get_branches (st : ServiceState) : List (String × List ThoughtData) :=
  st.branches

/-- `clear_history` (lines 145-149): empties both collections. -/
def clear_history (_st : ServiceState) : ServiceState := initState

/-- The summary record returned by `get_summary`. -/
structure Summary where
  total_thoughts : Nat
  branches : List String
  branch_count : Nat
  latest_thought_number : Int
  latest_total_estimate : Int
deriving DecidableEq, Repr

/-- `get_summary` (lines 151-165). -/
def get_summary (st : ServiceState) : Summary :=
  { total_thoughts := st.thought_history.length
    branches := st.branches.map (fun p => p.1)
    branch_count := st.branches.length
    latest_thought_number :=
      match st.thought_history.getLast? with
      | some t => t.thought_number
      | none => 0
    latest_total_estimate :=
      match st.thought_history.getLast? with
      | some t => t.total_thoughts
      | none => 0 }

/-- An operation of a session trace: a `process_thought` submission or a
`clear_history` call. -/
inductive Op where
  | record (input : RawInput)
  | clear
deriving Repr

/-- One step of the session state machine. -/
def stepOp (st : ServiceState) : Op → ServiceState
  | Op.record input => (process_thought st input).1
  | Op.clear => clear_history st

/-- Run a trace of operations from the freshly constructed service. -/
def runOps (ops : List Op) : ServiceState :=
  ops.foldl stepOp initState

/-! ### Concrete sample payloads used by witnesses and counterexamples -/

/-- A plain valid submission (spec §8 scenario "A"). -/
def inpPlain : RawInput :=
  [("thought", Value.vStr "A"), ("thought_number", Value.vInt 1),
   ("total_thoughts", Value.vInt 3), ("next_thought_needed", Value.vBool true)]

/-- A valid submission whose `thought_number` exceeds `total_thoughts`
(spec §8 scenario "B"). -/
def inpOverflow : RawInput :=
  [("thought", Value.vStr "B"), ("thought_number", Value.vInt 5),
   ("total_thoughts", Value.vInt 3), ("next_thought_needed", Value.vBool false)]

/-- A valid branching submission (spec §8 scenario "C"). -/
def inpBranch : RawInput :=
  [("thought", Value.vStr "C"), ("thought_number", Value.vInt 2),
   ("total_thoughts", Value.vInt 3), ("next_thought_needed", Value.vBool true),
   ("branch_from_thought", Value.vInt 1), ("branch_id", Value.vStr "x")]

/-- A submission with a non-null `branch_from_thought` and a non-null but
EMPTY-STRING `branch_id`. -/
def inpEmptyBranchId : RawInput :=
  [("thought", Value.vStr "A"), ("thought_number", Value.vInt 1),
   ("total_thoughts", Value.vInt 3), ("next_thought_needed", Value.vBool true),
   ("branch_from_thought", Value.vInt 1), ("branch_id", Value.vStr "")]

/-- A submission whose `thought` text is the empty string. -/
def inpEmptyThought : RawInput :=
  [("thought", Value.vStr ""), ("thought_number", Value.vInt 1),
   ("total_thoughts", Value.vInt 1), ("next_thought_needed", Value.vBool true)]

/-- An invalid submission: all required fields except `thought` are
missing (spec §8 scenario). -/
def inpMissing : RawInput := [("thought", Value.vStr "A")]

/-! ### C1: total-thoughts floor -/

/-- C1: for every successfully recorded thought, if its `thought_number`
exceeds its `total_thoughts` the stored record (the one appended to the
history) and the response carry `total_thoughts` raised to `thought_number`;
otherwise `total_thoughts` is stored unchanged. -/
theorem total_thoughts_floor (st : ServiceState) (input : RawInput) (v : ThoughtData)
    (h : validate_thought_data input = Except.ok v) :
    ∃ w : ThoughtData,
      (process_thought st input).1.thought_history = st.thought_history ++ [w] ∧
      (process_thought st input).2.total_thoughts = w.total_thoughts ∧
      w.thought_number = v.thought_number ∧
      (v.total_thoughts < v.thought_number → w.total_thoughts = v.thought_number) ∧
      (v.thought_number ≤ v.total_thoughts → w.total_thoughts = v.total_thoughts) := by
  by_cases hc : v.thought_number > v.total_thoughts
  · refine ⟨{ v with total_thoughts := v.thought_number }, ?_, ?_, ?_, ?_, ?_⟩
    · simp [process_thought, h, if_pos hc]
    · simp [process_thought, h, if_pos hc]
    · rfl
    · intro _; rfl
    · intro hle; omega
  · refine ⟨v, ?_, ?_, ?_, ?_, ?_⟩
    · simp [process_thought, h, if_neg hc]
    · simp [process_thought, h, if_neg hc]
    · rfl
    · intro hlt; omega
    · intro _; rfl

/-- Witness for C1 at the concrete payload `inpOverflow` (5 > 3). -/
theorem total_thoughts_floor_witness :
    ∃ w : ThoughtData,
      (process_thought initState inpOverflow).1.thought_history =
        initState.thought_history ++ [w] ∧
      (process_thought initState inpOverflow).2.total_thoughts = w.total_thoughts ∧
      w.thought_number = 5 ∧
      ((3 : Int) < 5 → w.total_thoughts = 5) ∧
      ((5 : Int) ≤ 3 → w.total_thoughts = 3) :=
  total_thoughts_floor initState inpOverflow
    ⟨"B", 5, 3, false, none, none, none, none, none⟩ (by rfl)

/-! ### C3: history grows by exactly one; failed validation mutates nothing -/

/-- C3: a successful `process_thought` call appends exactly one record to the
history, and a call that fails validation leaves the whole state (history and
branches) exactly as it was. -/
theorem history_growth (st : ServiceState) (input : RawInput) :
    (∀ v, validate_thought_data input = Except.ok v →
      (process_thought st input).1.thought_history.length =
        st.thought_history.length + 1) ∧
    (∀ e, validate_thought_data input = Except.error e →
      (process_thought st input).1 = st) := by
  constructor
  · intro v h
    simp [process_thought, h]
  · intro e h
    simp [process_thought, h]

/-- Witness for C3: the valid payload `inpPlain` grows the empty history to
length one; the invalid payload `inpMissing` leaves the state untouched. -/
theorem history_growth_witness :
    (process_thought initState inpPlain).1.thought_history.length =
      initState.thought_history.length + 1 ∧
    (process_thought initState inpMissing).1 = initState :=
  ⟨(history_growth initState inpPlain).1
      ⟨"A", 1, 3, true, none, none, none, none, none⟩ (by rfl),
   (history_growth initState inpMissing).2
      "Invalid thought data: validation error" (by rfl)⟩

/-! ### C4: structured failure response -/

/-- C4: a `process_thought` call whose validation fails leaves the state
unchanged and returns (it never raises — the embedding is a total function)
the structured failure response: zeroed numbers, `next_thought_needed =
false`, empty branch list, the current history length, a non-empty error
message and status "failed". -/
theorem failure_response_shape (st : ServiceState) (input : RawInput) (e : String)
    (h : validate_thought_data input = Except.error e) :
    (process_thought st input).1 = st ∧
    (process_thought st input).2 =
      { thought_number := 0, total_thoughts := 0, next_thought_needed := false,
        branches := [], thought_history_length := st.thought_history.length,
        error := some e, status := some "failed" } ∧
    e ≠ "" := by
  refine ⟨?_, ?_, ?_⟩
  · simp [process_thought, h]
  · simp [process_thought, h]
  · unfold validate_thought_data at h
    cases hb : buildThought (normalizeKeys input) with
    | some t => rw [hb] at h; exact absurd h (by simp)
    | none =>
        rw [hb] at h
        have he : e = "Invalid thought data: validation error" := by
          cases h; rfl
        subst he
        decide

/-- Witness for C4 at the concrete invalid payload `inpMissing`. -/
theorem failure_response_shape_witness :
    (process_thought initState inpMissing).1 = initState ∧
    (process_thought initState inpMissing).2 =
      { thought_number := 0, total_thoughts := 0, next_thought_needed := false,
        branches := [], thought_history_length := initState.thought_history.length,
        error := some "Invalid thought data: validation error",
        status := some "failed" } ∧
    "Invalid thought data: validation error" ≠ "" :=
  failure_response_shape initState inpMissing
    "Invalid thought data: validation error" (by rfl)

/-! ### Branch-index invariant machinery -/

theorem blookup_append_of_none (l₁ l₂ : List (String × List ThoughtData)) (k : String)
    (h : blookup l₁ k = none) : blookup (l₁ ++ l₂) k = blookup l₂ k := by
  induction l₁ with
  | nil => rfl
  | cons p rest ih =>
    obtain ⟨k', v⟩ := p
    by_cases hk : k' = k
    · simp [blookup, hk] at h
    · simp only [blookup, List.cons_append, if_neg hk] at h ⊢
      exact ih h

theorem blookup_append_of_some (l₁ l₂ : List (String × List ThoughtData)) (k : String)
    (l : List ThoughtData) (h : blookup l₁ k = some l) : blookup (l₁ ++ l₂) k = some l := by
  induction l₁ with
  | nil => simp [blookup] at h
  | cons p rest ih =>
    obtain ⟨k', v⟩ := p
    by_cases hk : k' = k
    · simp only [blookup, List.cons_append, if_pos hk] at h ⊢
      exact h
    · simp only [blookup, List.cons_append, if_neg hk] at h ⊢
      exact ih h

theorem blookup_map_update (bs : List (String × List ThoughtData)) (k : String)
    (t : ThoughtData) (b : String) :
    blookup (bs.map (fun p => if p.1 = k then (p.1, p.2 ++ [t]) else p)) b =
      if b = k then (blookup bs b).map (fun l => l ++ [t]) else blookup bs b := by
  induction bs with
  | nil => simp [blookup]
  | cons p rest ih =>
    obtain ⟨k', v⟩ := p
    by_cases h1 : k' = k
    · have hmap : ((k', v) :: rest).map (fun p => if p.1 = k then (p.1, p.2 ++ [t]) else p) =
        (k', v ++ [t]) :: rest.map (fun p => if p.1 = k then (p.1, p.2 ++ [t]) else p) := by
        simp [h1]
      rw [hmap]
      by_cases h2 : k' = b
      · subst h2
        simp [blookup, h1]
      · have h2' : ¬ b = k := by
          rw [← h1]
          exact fun he => h2 he.symm
        simp [blookup, ih, h2, h2']
    · have hmap : ((k', v) :: rest).map (fun p => if p.1 = k then (p.1, p.2 ++ [t]) else p) =
        (k', v) :: rest.map (fun p => if p.1 = k then (p.1, p.2 ++ [t]) else p) := by
        simp [h1]
      rw [hmap]
      by_cases h2 : k' = b
      · subst h2
        simp [blookup, h1]
      · simp [blookup, ih, h2]

theorem blookup_eq_none_iff (bs : List (String × List ThoughtData)) (k : String) :
    blookup bs k = none ↔ k ∉ bs.map Prod.fst := by
  induction bs with
  | nil => simp [blookup]
  | cons p rest ih =>
    obtain ⟨k', v⟩ := p
    by_cases hk : k' = k
    · simp [blookup, hk]
    · simp [blookup, hk, ih, Ne.symm hk]

theorem branchAppend_of_none (bs : List (String × List ThoughtData)) (k : String)
    (t : ThoughtData) (h : blookup bs k = none) :
    branchAppend bs k t = bs ++ [(k, [t])] := by
  unfold branchAppend
  rw [h]

theorem branchAppend_of_some (bs : List (String × List ThoughtData)) (k : String)
    (t : ThoughtData) (l : List ThoughtData) (h : blookup bs k = some l) :
    branchAppend bs k t = bs.map (fun p => if p.1 = k then (p.1, p.2 ++ [t]) else p) := by
  unfold branchAppend
  rw [h]

theorem keys_branchAppend_of_some (bs : List (String × List ThoughtData)) (k : String)
    (t : ThoughtData) (l : List ThoughtData) (h : blookup bs k = some l) :
    (branchAppend bs k t).map Prod.fst = bs.map Prod.fst := by
  rw [branchAppend_of_some bs k t l h]
  simp only [List.map_map]
  congr 1
  funext p
  by_cases hp : p.1 = k <;> simp [hp]

theorem keys_branchAppend_of_none (bs : List (String × List ThoughtData)) (k : String)
    (t : ThoughtData) (h : blookup bs k = none) :
    (branchAppend bs k t).map Prod.fst = bs.map Prod.fst ++ [k] := by
  rw [branchAppend_of_none bs k t h]
  simp

/-- The records kept in `branches[b]`, expressed as a projection of the
history: exactly the stored records whose two branch fields are truthy and
whose `branch_id` is `b`. -/
def branchFilter (hist : List ThoughtData) (b : String) : List ThoughtData :=
  hist.filter (fun v => branchCond v && decide (v.branch_id = some b))

theorem branchFilter_append (hist : List ThoughtData) (w : ThoughtData) (b : String) :
    branchFilter (hist ++ [w]) b =
      branchFilter hist b ++
        (if branchCond w && decide (w.branch_id = some b) then [w] else []) := by
  simp only [branchFilter, List.filter_append]
  congr 1
  by_cases h : (branchCond w && decide (w.branch_id = some b)) = true <;> simp [List.filter, h]

/-- The inductive invariant of the branch index: every branch entry is the
corresponding filter of the history, and the branch keys are distinct. -/
def branchInv (st : ServiceState) : Prop :=
  (∀ b, blookup st.branches b =
      if branchFilter st.thought_history b = [] then none
      else some (branchFilter st.thought_history b)) ∧
  (st.branches.map Prod.fst).Nodup

theorem branchInv_init : branchInv initState := by
  constructor
  · intro b
    simp [initState, blookup, branchFilter]
  · simp [initState]

theorem branchInv_insert (st : ServiceState) (w : ThoughtData) (h : branchInv st) :
    branchInv
      ⟨st.thought_history ++ [w],
       if branchCond w then branchAppend st.branches (w.branch_id.getD "") w
       else st.branches⟩ := by
  obtain ⟨hl, hnd⟩ := h
  by_cases hc : branchCond w = true
  · have hbid : ∃ s, w.branch_id = some s ∧ s ≠ "" := by
      unfold branchCond at hc
      cases hb : w.branch_id with
      | none => rw [hb] at hc; simp [optStrTruthy] at hc
      | some s =>
          rw [hb] at hc
          simp [optStrTruthy] at hc
          exact ⟨s, rfl, hc.2⟩
    obtain ⟨s, hs, hse⟩ := hbid
    have hkey : w.branch_id.getD "" = s := by rw [hs]; rfl
    have hcond : ∀ b', (branchCond w && decide (w.branch_id = some b')) = decide (s = b') := by
      intro b'
      rw [hc, hs]
      simp
    constructor
    · intro b
      show blookup
          (if branchCond w then branchAppend st.branches (w.branch_id.getD "") w
           else st.branches) b = _
      rw [if_pos hc, hkey]
      by_cases hb : s = b
      · subst hb
        have hfil : branchFilter (st.thought_history ++ [w]) s =
            branchFilter st.thought_history s ++ [w] := by
          rw [branchFilter_append, hcond s]
          simp
        rw [hfil]
        have hne : branchFilter st.thought_history s ++ [w] ≠ [] := by simp
        rw [if_neg hne]
        cases hlk : blookup st.branches s with
        | none =>
            rw [branchAppend_of_none st.branches s w hlk]
            rw [blookup_append_of_none _ _ _ hlk]
            have hf : branchFilter st.thought_history s = [] := by
              by_contra hfne
              have hx := hl s
              rw [hlk, if_neg hfne] at hx
              exact absurd hx (by simp)
            rw [hf]
            simp [blookup]
        | some l =>
            rw [branchAppend_of_some st.branches s w l hlk]
            rw [blookup_map_update, if_pos rfl, hlk]
            have hf : branchFilter st.thought_history s = l := by
              have hx := hl s
              by_cases hfe : branchFilter st.thought_history s = []
              · rw [hlk, if_pos hfe] at hx
                exact absurd hx (by simp)
              · rw [hlk, if_neg hfe] at hx
                exact (Option.some_inj.mp hx).symm
            rw [hf]
            simp
      · have hfil : branchFilter (st.thought_history ++ [w]) b =
            branchFilter st.thought_history b := by
          rw [branchFilter_append, hcond b]
          have : decide (s = b) = false := by simp [hb]
          rw [this]
          simp
        rw [hfil]
        have hred : blookup (branchAppend st.branches s w) b = blookup st.branches b := by
          cases hlk : blookup st.branches s with
          | none =>
              rw [branchAppend_of_none st.branches s w hlk]
              cases hbb : blookup st.branches b with
              | none =>
                  rw [blookup_append_of_none _ _ _ hbb]
                  simp [blookup, hb]
              | some l =>
                  rw [blookup_append_of_some _ _ _ _ hbb]
          | some l =>
              rw [branchAppend_of_some st.branches s w l hlk]
              rw [blookup_map_update]
              rw [if_neg (fun he => hb he.symm)]
        rw [hred]
        exact hl b
    · show ((if branchCond w then branchAppend st.branches (w.branch_id.getD "") w
         else st.branches).map Prod.fst).Nodup
      rw [if_pos hc, hkey]
      cases hlk : blookup st.branches s with
      | some l =>
          rw [keys_branchAppend_of_some st.branches s w l hlk]
          exact hnd
      | none =>
          rw [keys_branchAppend_of_none st.branches s w hlk]
          have hnotin : s ∉ st.branches.map Prod.fst :=
            (blookup_eq_none_iff _ _).mp hlk
          simp [List.nodup_append, hnd, hnotin]
  · have hcf : branchCond w = false := by
      cases hcb : branchCond w
      · rfl
      · exact absurd hcb hc
    have hcond : ∀ b', (branchCond w && decide (w.branch_id = some b')) = false := by
      intro b'
      rw [hcf]
      simp
    constructor
    · intro b
      show blookup
          (if branchCond w then branchAppend st.branches (w.branch_id.getD "") w
           else st.branches) b = _
      rw [if_neg hc]
      have hfil : branchFilter (st.thought_history ++ [w]) b =
          branchFilter st.thought_history b := by
        rw [branchFilter_append, hcond b]
        simp
      rw [hfil]
      exact hl b
    · show ((if branchCond w then branchAppend st.branches (w.branch_id.getD "") w
         else st.branches).map Prod.fst).Nodup
      rw [if_neg hc]
      exact hnd

theorem branchInv_step (st : ServiceState) (op : Op) (h : branchInv st) :
    branchInv (stepOp st op) := by
  cases op with
  | clear => exact branchInv_init
  | record input =>
      cases hv : validate_thought_data input with
      | error e =>
          have hst : stepOp st (Op.record input) = st := by
            simp [stepOp, process_thought, hv]
          rw [hst]
          exact h
      | ok v =>
          have hst : stepOp st (Op.record input) =
              ⟨st.thought_history ++
                 [if v.thought_number > v.total_thoughts
                  then { v with total_thoughts := v.thought_number } else v],
               if branchCond (if v.thought_number > v.total_thoughts
                    then { v with total_thoughts := v.thought_number } else v)
               then branchAppend st.branches
                      ((if v.thought_number > v.total_thoughts
                        then { v with total_thoughts := v.thought_number }
                        else v).branch_id.getD "")
                      (if v.thought_number > v.total_thoughts
                       then { v with total_thoughts := v.thought_number } else v)
               else st.branches⟩ := by
            simp [stepOp, process_thought, hv]
          rw [hst]
          exact branchInv_insert st _ h

theorem branchInv_runOps (ops : List Op) : branchInv (runOps ops) := by
  have key : ∀ (l : List Op) (st : ServiceState),
      branchInv st → branchInv (l.foldl stepOp st) := by
    intro l
    induction l with
    | nil => intro st h; exact h
    | cons op rest ih =>
        intro st h
        exact ih _ (branchInv_step st op h)
  exact key ops initState branchInv_init

/-! ### C2: branch membership -/

/-- C2 as stated is false: this record is submitted with a NON-NULL
`branch_id` (= `""`) and a non-null `branch_from_thought` (= 1), is stored in
the history, yet `branches` stays empty — it is not added to `branches[""]`,
because the code tests Python truthiness (`""` is falsy), not non-nullness. -/
theorem branch_membership_counterexample :
    (process_thought initState inpEmptyBranchId).1.thought_history =
      [{ thought := "A", thought_number := 1, total_thoughts := 3,
         next_thought_needed := true, is_revision := none, revises_thought := none,
         branch_from_thought := some 1, branch_id := some "",
         needs_more_thoughts := none }] ∧
    (process_thought initState inpEmptyBranchId).1.branches = [] :=
  ⟨rfl, rfl⟩

/-- C2 (amended): after any sequence of record and clear operations,
`branches[b]` is exactly the sub-sequence of the history whose records carry
a truthy pair of branch fields (`branch_from_thought` non-null and non-zero,
`branch_id` non-null and NON-EMPTY) with `branch_id = b`; in particular a
record is present in `branches[b]` iff it is stored with `branch_id = b` and
truthy branch fields, and a record with only one of the two fields set, or
with an empty-string `branch_id`, is never added to any branch. -/
theorem branch_membership_amended (ops : List Op) (b : String) :
    blookup (runOps ops).branches b =
      (if branchFilter (runOps ops).thought_history b = [] then none
       else some (branchFilter (runOps ops).thought_history b)) ∧
    ∀ t : ThoughtData,
      (∃ l, blookup (runOps ops).branches b = some l ∧ t ∈ l) ↔
        (t ∈ (runOps ops).thought_history ∧ branchCond t = true ∧
          t.branch_id = some b) := by
  obtain ⟨hl, _⟩ := branchInv_runOps ops
  refine ⟨hl b, ?_⟩
  intro t
  constructor
  · rintro ⟨l, hsome, htl⟩
    rw [hl b] at hsome
    by_cases hf : branchFilter (runOps ops).thought_history b = []
    · rw [if_pos hf] at hsome
      exact absurd hsome (by simp)
    · rw [if_neg hf] at hsome
      have hlf : l = branchFilter (runOps ops).thought_history b :=
        (Option.some_inj.mp hsome).symm
      rw [hlf] at htl
      unfold branchFilter at htl
      rw [List.mem_filter] at htl
      obtain ⟨hmem, hcond⟩ := htl
      simp only [Bool.and_eq_true, decide_eq_true_eq] at hcond
      exact ⟨hmem, hcond.1, hcond.2⟩
  · rintro ⟨hmem, hcond, hbid⟩
    have htf : t ∈ branchFilter (runOps ops).thought_history b := by
      unfold branchFilter
      rw [List.mem_filter]
      refine ⟨hmem, ?_⟩
      simp [hcond, hbid]
    have hf : branchFilter (runOps ops).thought_history b ≠ [] := by
      intro he
      rw [he] at htf
      simp at htf
    refine ⟨branchFilter (runOps ops).thought_history b, ?_, htf⟩
    rw [hl b, if_neg hf]

/-! ### C6: summary projection -/

/-- C6: `get_summary` reports the history length, the branch ids in stored
(first-seen) order, the number of DISTINCT branch ids, and the
`thought_number` / `total_thoughts` of the last history element (0 when the
history is empty).  It is a pure function of the state (it returns only a
`Summary` value), so it cannot mutate the store. -/
theorem get_summary_spec (ops : List Op) :
    (get_summary (runOps ops)).total_thoughts = (get_thought_history (runOps ops)).length ∧
    (get_summary (runOps ops)).branches = (get_branches (runOps ops)).map Prod.fst ∧
    (get_summary (runOps ops)).branch_count =
      ((get_branches (runOps ops)).map Prod.fst).dedup.length ∧
    (get_summary (runOps ops)).latest_thought_number =
      (match (get_thought_history (runOps ops)).getLast? with
       | some t => t.thought_number
       | none => 0) ∧
    (get_summary (runOps ops)).latest_total_estimate =
      (match (get_thought_history (runOps ops)).getLast? with
       | some t => t.total_thoughts
       | none => 0) := by
  obtain ⟨_, hnd⟩ := branchInv_runOps ops
  refine ⟨rfl, rfl, ?_, rfl, rfl⟩
  have hd : ((runOps ops).branches.map Prod.fst).dedup = (runOps ops).branches.map Prod.fst :=
    List.dedup_eq_self.mpr hnd
  show (runOps ops).branches.length = (((runOps ops).branches.map Prod.fst).dedup).length
  rw [hd, List.length_map]

/-! ### C10: branch records live in the history -/

/-- C10: after any sequence of record and clear operations, every record in
any registered branch is also an element of the history, every registered
branch id maps to a non-empty list, and the branch index is empty whenever
the history is empty. -/
theorem branch_records_in_history (ops : List Op) :
    (∀ b l, blookup (runOps ops).branches b = some l →
       l ≠ [] ∧ ∀ t ∈ l, t ∈ (runOps ops).thought_history) ∧
    ((runOps ops).thought_history = [] → (runOps ops).branches = []) := by
  obtain ⟨hl, _⟩ := branchInv_runOps ops
  constructor
  · intro b l hsome
    rw [hl b] at hsome
    by_cases hf : branchFilter (runOps ops).thought_history b = []
    · rw [if_pos hf] at hsome
      exact absurd hsome (by simp)
    · rw [if_neg hf] at hsome
      have hlf : l = branchFilter (runOps ops).thought_history b :=
        (Option.some_inj.mp hsome).symm
      subst hlf
      refine ⟨hf, ?_⟩
      intro t htf
      unfold branchFilter at htf
      exact (List.mem_filter.mp htf).1
  · intro hh
    cases hbs : (runOps ops).branches with
    | nil => rfl
    | cons p rest =>
        obtain ⟨k, v⟩ := p
        have h2 := hl k
        rw [hbs, hh] at h2
        simp [blookup, branchFilter] at h2

/-- The record stored by a successful `inpBranch` submission. -/
def recC : ThoughtData := ⟨"C", 2, 3, true, none, none, some 1, some "x", none⟩

/-- Witness for C10: a trace with one branching record, and a trace ending
in a clear. -/
theorem branch_records_in_history_witness :
    (([recC] : List ThoughtData) ≠ [] ∧
      ∀ t ∈ ([recC] : List ThoughtData),
        t ∈ (runOps [Op.record inpBranch]).thought_history) ∧
    (runOps [Op.clear]).branches = [] :=
  ⟨(branch_records_in_history [Op.record inpBranch]).1 "x" [recC] (by rfl),
   (branch_records_in_history [Op.clear]).2 (by rfl)⟩

/-! ### C5: the validator against the spec's rules

The `spec...Ok` predicates below transcribe the SPEC's validation rules
(§4.1: required fields present, declared types, `≥ 1` ranges, and — per
§3 — a non-empty `thought` text), to be compared with the embedded
validator. -/

/-- Spec rule for `thought`: present, text, and non-empty. -/
def specThoughtOk : Option Value → Bool
  | some (.vStr s) => decide (s ≠ "")
  | _ => false

/-- Spec rule for a required positive integer field. -/
def specReqPosIntOk : Option Value → Bool
  | some (.vInt n) => decide (1 ≤ n)
  | _ => false

/-- Spec rule for a required boolean field. -/
def specReqBoolOk : Option Value → Bool
  | some (.vBool _) => true
  | _ => false

/-- Spec rule for an optional boolean field. -/
def specOptBoolOk : Option Value → Bool
  | none => true
  | some .vNone => true
  | some (.vBool _) => true
  | _ => false

/-- Spec rule for an optional positive-integer target field. -/
def specOptPosIntOk : Option Value → Bool
  | none => true
  | some .vNone => true
  | some (.vInt n) => decide (1 ≤ n)
  | _ => false

/-- Spec rule for an optional identifier field. -/
def specOptStrOk : Option Value → Bool
  | none => true
  | some .vNone => true
  | some (.vStr _) => true
  | _ => false

/-- All of the spec's validation rules on the normalized payload. -/
def spec_accepts (d : RawInput) : Bool :=
  specThoughtOk (dget d "thought") &&
  specReqPosIntOk (dget d "thought_number") &&
  specReqPosIntOk (dget d "total_thoughts") &&
  specReqBoolOk (dget d "next_thought_needed") &&
  specOptBoolOk (dget d "is_revision") &&
  specOptPosIntOk (dget d "revises_thought") &&
  specOptPosIntOk (dget d "branch_from_thought") &&
  specOptStrOk (dget d "branch_id") &&
  specOptBoolOk (dget d "needs_more_thoughts")

/-- Whether validation succeeded. -/
def exceptOk : Except String ThoughtData → Bool
  | Except.ok _ => true
  | Except.error _ => false

/-- C5 as stated is false: the payload with `thought = ""` (all other rules
satisfied) is ACCEPTED by the validator, although the claimed rule set
(which includes non-empty thought text) rejects it. -/
theorem validator_rules_counterexample :
    exceptOk (validate_thought_data inpEmptyThought) = true ∧
    spec_accepts (normalizeKeys inpEmptyThought) = false :=
  ⟨rfl, rfl⟩

theorem exceptOk_validate (input : RawInput) :
    exceptOk (validate_thought_data input) = (buildThought (normalizeKeys input)).isSome := by
  unfold validate_thought_data
  cases h : buildThought (normalizeKeys input) <;> simp [exceptOk]

theorem buildThought_isSome (d : RawInput) :
    (buildThought d).isSome =
      ((parseReqStr (dget d "thought")).isSome &&
       (parseReqIntGe1 (dget d "thought_number")).isSome &&
       (parseReqIntGe1 (dget d "total_thoughts")).isSome &&
       (parseReqBool (dget d "next_thought_needed")).isSome &&
       (parseOptBool (dget d "is_revision")).isSome &&
       (parseOptIntGe1 (dget d "revises_thought")).isSome &&
       (parseOptIntGe1 (dget d "branch_from_thought")).isSome &&
       (parseOptStr (dget d "branch_id")).isSome &&
       (parseOptBool (dget d "needs_more_thoughts")).isSome) := by
  unfold buildThought
  cases parseReqStr (dget d "thought")
  · simp
  · cases parseReqIntGe1 (dget d "thought_number")
    · simp
    · cases parseReqIntGe1 (dget d "total_thoughts")
      · simp
      · cases parseReqBool (dget d "next_thought_needed")
        · simp
        · cases parseOptBool (dget d "is_revision")
          · simp
          · cases parseOptIntGe1 (dget d "revises_thought")
            · simp
            · cases parseOptIntGe1 (dget d "branch_from_thought")
              · simp
              · cases parseOptStr (dget d "branch_id")
                · simp
                · cases parseOptBool (dget d "needs_more_thoughts")
                  · simp
                  · simp

/-! The embedded parse functions underapproximate pydantic's lax mode on
mistyped-but-coercible values (see the header note), so the accept/reject
boundary is characterized only on payloads of declared structural shape,
where no pydantic version performs any coercion and the embedding agrees
with the program exactly. -/

/-- The binding of a required `str` field, if any, is structurally a string
(absence stays in the domain: it is the "missing field" case, rejected by
every pydantic version alike; a coercible mistyped value does not). -/
def shapeReqStr : Option Value → Bool
  | none => true
  | some (.vStr _) => true
  | _ => false

/-- The binding of a required `int` field, if any, is structurally an
integer. -/
def shapeReqInt : Option Value → Bool
  | none => true
  | some (.vInt _) => true
  | _ => false

/-- The binding of a required `bool` field, if any, is structurally a
boolean. -/
def shapeReqBool : Option Value → Bool
  | none => true
  | some (.vBool _) => true
  | _ => false

/-- The binding of an `Optional[int]` field, if any, is `None` or an
integer. -/
def shapeOptInt : Option Value → Bool
  | none => true
  | some .vNone => true
  | some (.vInt _) => true
  | _ => false

/-- The binding of an `Optional[bool]` field, if any, is `None` or a
boolean. -/
def shapeOptBool : Option Value → Bool
  | none => true
  | some .vNone => true
  | some (.vBool _) => true
  | _ => false

/-- The binding of an `Optional[str]` field, if any, is `None` or a
string. -/
def shapeOptStr : Option Value → Bool
  | none => true
  | some .vNone => true
  | some (.vStr _) => true
  | _ => false

/-- The normalized payload's canonical fields all carry values of the
declared structural shape wherever present; on this domain lax coercion
never fires, in any pydantic version. -/
def declaredShape (d : RawInput) : Bool :=
  shapeReqStr (dget d "thought") &&
  shapeReqInt (dget d "thought_number") &&
  shapeReqInt (dget d "total_thoughts") &&
  shapeReqBool (dget d "next_thought_needed") &&
  shapeOptBool (dget d "is_revision") &&
  shapeOptInt (dget d "revises_thought") &&
  shapeOptInt (dget d "branch_from_thought") &&
  shapeOptStr (dget d "branch_id") &&
  shapeOptBool (dget d "needs_more_thoughts")

/-- A present integer value satisfies its `ge=1` range constraint (vacuous
on anything that is not a present integer). -/
def rangeGe1 : Option Value → Bool
  | some (.vInt n) => decide (1 ≤ n)
  | _ => true

/-- The amended rule set on the declared-shape domain: the four required
fields are present, and every numeric value in play is `≥ 1`.  No
non-emptiness requirement on `thought`. -/
def spec_accepts_declared (d : RawInput) : Bool :=
  (dget d "thought").isSome &&
  ((dget d "thought_number").isSome && rangeGe1 (dget d "thought_number")) &&
  ((dget d "total_thoughts").isSome && rangeGe1 (dget d "total_thoughts")) &&
  (dget d "next_thought_needed").isSome &&
  rangeGe1 (dget d "revises_thought") &&
  rangeGe1 (dget d "branch_from_thought")

theorem parseReqStr_isSome_of_shape (v : Option Value) (h : shapeReqStr v = true) :
    (parseReqStr v).isSome = v.isSome := by
  cases v with
  | none => rfl
  | some x => cases x <;> simp_all [shapeReqStr, parseReqStr]

theorem parseReqIntGe1_isSome_of_shape (v : Option Value) (h : shapeReqInt v = true) :
    (parseReqIntGe1 v).isSome = (v.isSome && rangeGe1 v) := by
  cases v with
  | none => rfl
  | some x =>
      cases x with
      | vInt n =>
          by_cases hn : (1 : Int) ≤ n <;> simp [parseReqIntGe1, rangeGe1, hn]
      | vStr s => simp [shapeReqInt] at h
      | vBool b => simp [shapeReqInt] at h
      | vNone => simp [shapeReqInt] at h

theorem parseReqBool_isSome_of_shape (v : Option Value) (h : shapeReqBool v = true) :
    (parseReqBool v).isSome = v.isSome := by
  cases v with
  | none => rfl
  | some x => cases x <;> simp_all [shapeReqBool, parseReqBool]

theorem parseOptBool_isSome_of_shape (v : Option Value) (h : shapeOptBool v = true) :
    (parseOptBool v).isSome = true := by
  cases v with
  | none => rfl
  | some x => cases x <;> simp_all [shapeOptBool, parseOptBool]

theorem parseOptIntGe1_isSome_of_shape (v : Option Value) (h : shapeOptInt v = true) :
    (parseOptIntGe1 v).isSome = rangeGe1 v := by
  cases v with
  | none => rfl
  | some x =>
      cases x with
      | vInt n =>
          by_cases hn : (1 : Int) ≤ n <;> simp [parseOptIntGe1, rangeGe1, hn]
      | vStr s => simp [shapeOptInt] at h
      | vBool b => simp [shapeOptInt] at h
      | vNone => rfl

theorem parseOptStr_isSome_of_shape (v : Option Value) (h : shapeOptStr v = true) :
    (parseOptStr v).isSome = true := by
  cases v with
  | none => rfl
  | some x => cases x <;> simp_all [shapeOptStr, parseOptStr]

/-- C5 (amended): restricted to payloads whose present normalized values
already have the declared structural shape — pydantic's version-dependent
lax coercion of mistyped values (e.g. a numeric string such as `"5"` for an
`int` field, or `"true"`/`0`/`1` for a `bool` field) lies outside this
statement and outside the embedding — the validator rejects an input iff a
rule is violated: a required field (`thought`, `thought_number`,
`total_thoughts`, `next_thought_needed`) is missing, `thought_number` or
`total_thoughts` is < 1, or a present `revises_thought` or
`branch_from_thought` is < 1.  The thought text is NOT required to be
non-empty: an empty-string `thought` is accepted. -/
theorem validator_rules_declared (input : RawInput)
    (hshape : declaredShape (normalizeKeys input) = true) :
    exceptOk (validate_thought_data input) =
      spec_accepts_declared (normalizeKeys input) := by
  rw [exceptOk_validate, buildThought_isSome]
  unfold declaredShape at hshape
  simp only [Bool.and_eq_true] at hshape
  obtain ⟨⟨⟨⟨⟨⟨⟨⟨h1, h2⟩, h3⟩, h4⟩, h5⟩, h6⟩, h7⟩, h8⟩, h9⟩ := hshape
  rw [parseReqStr_isSome_of_shape _ h1, parseReqIntGe1_isSome_of_shape _ h2,
    parseReqIntGe1_isSome_of_shape _ h3, parseReqBool_isSome_of_shape _ h4,
    parseOptBool_isSome_of_shape _ h5, parseOptIntGe1_isSome_of_shape _ h6,
    parseOptIntGe1_isSome_of_shape _ h7, parseOptStr_isSome_of_shape _ h8,
    parseOptBool_isSome_of_shape _ h9]
  unfold spec_accepts_declared
  simp [Bool.and_assoc]

/-- Witness for the amended C5: the empty-thought payload has declared
shape, is accepted by the validator, and satisfies the amended rule set —
exercising the restricted iff precisely where the original claim failed. -/
theorem validator_rules_declared_witness :
    exceptOk (validate_thought_data inpEmptyThought) =
      spec_accepts_declared (normalizeKeys inpEmptyThought) :=
  validator_rules_declared inpEmptyThought (by decide)

/-! ### C7: camelCase and snake_case payloads behave identically -/

/-- A full payload under the camelCase key spellings used by the tool
adapter. -/
def camelPayload (a b c d e f g h i : Value) : RawInput :=
  [("thought", a), ("nextThoughtNeeded", b), ("thoughtNumber", c),
   ("totalThoughts", d), ("isRevision", e), ("revisesThought", f),
   ("branchFromThought", g), ("branchId", h), ("needsMoreThoughts", i)]

/-- The same payload under the snake_case spellings. -/
def snakePayload (a b c d e f g h i : Value) : RawInput :=
  [("thought", a), ("next_thought_needed", b), ("thought_number", c),
   ("total_thoughts", d), ("is_revision", e), ("revises_thought", f),
   ("branch_from_thought", g), ("branch_id", h), ("needs_more_thoughts", i)]

/-- C7: for every state and all field values, submitting the camelCase
payload produces exactly the same result — response and resulting store
state — as submitting the same values under snake_case keys: every key is
canonicalized by `_camel_to_snake` before field matching. -/
theorem camel_snake_equivalent (st : ServiceState) (a b c d e f g h i : Value) :
    process_thought st (camelPayload a b c d e f g h i) =
      process_thought st (snakePayload a b c d e f g h i) := by
  have h1 : camel_to_snake "thought" = "thought" := by decide
  have h2 : camel_to_snake "nextThoughtNeeded" = "next_thought_needed" := by decide
  have h3 : camel_to_snake "thoughtNumber" = "thought_number" := by decide
  have h4 : camel_to_snake "totalThoughts" = "total_thoughts" := by decide
  have h5 : camel_to_snake "isRevision" = "is_revision" := by decide
  have h6 : camel_to_snake "revisesThought" = "revises_thought" := by decide
  have h7 : camel_to_snake "branchFromThought" = "branch_from_thought" := by decide
  have h8 : camel_to_snake "branchId" = "branch_id" := by decide
  have h9 : camel_to_snake "needsMoreThoughts" = "needs_more_thoughts" := by decide
  have h2' : camel_to_snake "next_thought_needed" = "next_thought_needed" := by decide
  have h3' : camel_to_snake "thought_number" = "thought_number" := by decide
  have h4' : camel_to_snake "total_thoughts" = "total_thoughts" := by decide
  have h5' : camel_to_snake "is_revision" = "is_revision" := by decide
  have h6' : camel_to_snake "revises_thought" = "revises_thought" := by decide
  have h7' : camel_to_snake "branch_from_thought" = "branch_from_thought" := by decide
  have h8' : camel_to_snake "branch_id" = "branch_id" := by decide
  have h9' : camel_to_snake "needs_more_thoughts" = "needs_more_thoughts" := by decide
  have hk : normalizeKeys (camelPayload a b c d e f g h i) =
      normalizeKeys (snakePayload a b c d e f g h i) := by
    simp [normalizeKeys, camelPayload, snakePayload,
      h1, h2, h3, h4, h5, h6, h7, h8, h9, h2', h3', h4', h5', h6', h7', h8', h9']
  have hv : validate_thought_data (camelPayload a b c d e f g h i) =
      validate_thought_data (snakePayload a b c d e f g h i) := by
    unfold validate_thought_data
    rw [hk]
  unfold process_thought
  rw [hv]

/-! ### C8: copy semantics of the accessors

`get_thought_history` returns `self.thought_history.copy()` and
`get_branches` returns `self.branches.copy()`.  Python object identity
matters here, so this claim is settled against a micro-model of the heap in
which every Python list object lives at an address: `list.copy()` allocates
a fresh address holding the same contents, while `dict.copy()` builds a new
outer mapping that still references the SAME list objects. -/

/-- A heap of Python list objects, addressed by index. -/
structure ListHeap where
  cells : List (List ThoughtData)
deriving DecidableEq, Repr

/-- Read the list object at an address. -/
def ListHeap.get (h : ListHeap) (a : Nat) : List ThoughtData := h.cells.getD a []

/-- Mutate the list object at an address in place. -/
def ListHeap.set (h : ListHeap) (a : Nat) (v : List ThoughtData) : ListHeap :=
  ⟨h.cells.set a v⟩

/-- Allocate a new list object; its address is fresh. -/
def ListHeap.alloc (h : ListHeap) (v : List ThoughtData) : ListHeap × Nat :=
  (⟨h.cells ++ [v]⟩, h.cells.length)

/-- The service state with Python object identity made explicit: the history
and each branch list live at heap addresses. -/
structure RefServiceState where
  historyAddr : Nat
  branchEntries : List (String × Nat)
deriving DecidableEq, Repr

/-- `get_thought_history` (line 139): `self.thought_history.copy()` — a
fresh list object with the same contents. -/
def get_thought_history_ref (h : ListHeap) (st : RefServiceState) : ListHeap × Nat :=
  h.alloc (h.get st.historyAddr)

/-- `get_branches` (line 143): `self.branches.copy()` — a new outer dict
whose values are the same list objects. -/
def get_branches_ref (st : RefServiceState) : List (String × Nat) :=
  st.branchEntries

/-- What a subsequent read of the store's history observes. -/
def storeHistoryView (h : ListHeap) (st : RefServiceState) : List ThoughtData :=
  h.get st.historyAddr

/-- What a subsequent read of the store's branches observes. -/
def storeBranchesView (h : ListHeap) (st : RefServiceState) :
    List (String × List ThoughtData) :=
  st.branchEntries.map (fun p => (p.1, h.get p.2))

theorem heap_get_alloc_lt (h : ListHeap) (v : List ThoughtData) (a : Nat)
    (ha : a < h.cells.length) : (h.alloc v).1.get a = h.get a := by
  unfold ListHeap.alloc ListHeap.get
  simp only [List.getD_eq_getElem?_getD]
  rw [List.getElem?_append, if_pos ha]

theorem heap_get_set_ne (h : ListHeap) (a b : Nat) (v : List ThoughtData)
    (hab : a ≠ b) : (h.set a v).get b = h.get b := by
  unfold ListHeap.set ListHeap.get
  simp only [List.getD_eq_getElem?_getD]
  rw [List.getElem?_set_ne hab]

/-- A concrete heap: address 0 holds the history `[recC]`, address 1 holds
the branch list of `"x"`, also `[recC]`. -/
def heap8 : ListHeap := ⟨[[recC], [recC]]⟩

/-- The matching store: history at address 0, one branch `"x"` at address 1. -/
def ref8 : RefServiceState := ⟨0, [("x", 1)]⟩

/-- C8 as stated is false for `get_branches`: the returned mapping hands out
the store's own per-branch list objects (`dict.copy()` is shallow), so
appending to the list at the address found under `"x"` in the returned
mapping changes what the store's branches read observes afterwards. -/
theorem accessor_isolation_counterexample :
    get_branches_ref ref8 = [("x", 1)] ∧
    storeBranchesView (ListHeap.set heap8 1 (ListHeap.get heap8 1 ++ [recC])) ref8 ≠
      storeBranchesView heap8 ref8 :=
  ⟨rfl, by decide⟩

/-- C8 (amended): `get_thought_history` hands back a fresh list object with
the history's contents, so mutating it (writing any value to its address)
never changes the store's history or branches as seen by subsequent reads;
`get_branches` returns a new outer mapping, but one whose entries reference
the store's own per-branch list objects, so those inner lists are shared,
not isolated. -/
theorem history_copy_isolated (h : ListHeap) (st : RefServiceState)
    (l : List ThoughtData) (hhv : st.historyAddr < h.cells.length)
    (hbv : ∀ p ∈ st.branchEntries, p.2 < h.cells.length) :
    (get_thought_history_ref h st).2 ≠ st.historyAddr ∧
    (get_thought_history_ref h st).1.get (get_thought_history_ref h st).2 =
      storeHistoryView h st ∧
    storeHistoryView
      (ListHeap.set (get_thought_history_ref h st).1 (get_thought_history_ref h st).2 l)
      st = storeHistoryView h st ∧
    storeBranchesView
      (ListHeap.set (get_thought_history_ref h st).1 (get_thought_history_ref h st).2 l)
      st = storeBranchesView h st ∧
    get_branches_ref st = st.branchEntries := by
  have haddr : (get_thought_history_ref h st).2 = h.cells.length := rfl
  have hne : (get_thought_history_ref h st).2 ≠ st.historyAddr := by
    rw [haddr]
    exact fun he => absurd (he ▸ hhv) (lt_irrefl _)
  refine ⟨hne, ?_, ?_, ?_, rfl⟩
  · show (h.alloc (h.get st.historyAddr)).1.get (h.cells.length) = h.get st.historyAddr
    unfold ListHeap.alloc ListHeap.get
    simp only [List.getD_eq_getElem?_getD]
    rw [List.getElem?_append]
    rw [if_neg (lt_irrefl _)]
    simp
  · show (ListHeap.set (get_thought_history_ref h st).1
        (get_thought_history_ref h st).2 l).get st.historyAddr = h.get st.historyAddr
    rw [heap_get_set_ne _ _ _ _ hne]
    exact heap_get_alloc_lt h _ st.historyAddr hhv
  · show st.branchEntries.map (fun p => (p.1,
        (ListHeap.set (get_thought_history_ref h st).1
          (get_thought_history_ref h st).2 l).get p.2)) =
      st.branchEntries.map (fun p => (p.1, h.get p.2))
    apply List.map_congr_left
    intro p hp
    have hpa : (get_thought_history_ref h st).2 ≠ p.2 := by
      rw [haddr]
      exact fun he => absurd (he ▸ hbv p hp) (lt_irrefl _)
    rw [heap_get_set_ne _ _ _ _ hpa]
    exact congrArg (fun x => (p.1, x))
      (heap_get_alloc_lt h (h.get st.historyAddr) p.2 (hbv p hp))

/-- Witness for the amended C8 at the concrete heap and store. -/
theorem history_copy_isolated_witness :
    (get_thought_history_ref heap8 ref8).2 ≠ ref8.historyAddr ∧
    (get_thought_history_ref heap8 ref8).1.get (get_thought_history_ref heap8 ref8).2 =
      storeHistoryView heap8 ref8 ∧
    storeHistoryView
      (ListHeap.set (get_thought_history_ref heap8 ref8).1
        (get_thought_history_ref heap8 ref8).2 [])
      ref8 = storeHistoryView heap8 ref8 ∧
    storeBranchesView
      (ListHeap.set (get_thought_history_ref heap8 ref8).1
        (get_thought_history_ref heap8 ref8).2 [])
      ref8 = storeBranchesView heap8 ref8 ∧
    get_branches_ref ref8 = ref8.branchEntries :=
  history_copy_isolated heap8 ref8 [] (by decide) (by decide)

/-! ### C9: `needs_more_thoughts` is informational only -/

/-- Erase the informational field. -/
def scrub (t : ThoughtData) : ThoughtData := { t with needs_more_thoughts := none }

/-- Erase the informational field across the branch index. -/
def scrubBranches (bs : List (String × List ThoughtData)) :
    List (String × List ThoughtData) :=
  bs.map (fun p => (p.1, p.2.map scrub))

/-- Erase the informational field across the whole state. -/
def scrubState (st : ServiceState) : ServiceState :=
  ⟨st.thought_history.map scrub, scrubBranches st.branches⟩

/-- Values acceptable for an `Optional[bool]` field: absent, `None`, or a
boolean. -/
def boolish : Option Value → Bool
  | none => true
  | some .vNone => true
  | some (.vBool _) => true
  | _ => false

/-- The `Optional[bool]` a boolish value validates to. -/
def bval : Option Value → Option Bool
  | some (.vBool b) => some b
  | _ => none

/-- A payload extended with an explicit `needs_more_thoughts` entry (or not). -/
def withNmt (base : RawInput) (v : Option Value) : RawInput :=
  base ++ (match v with
           | none => []
           | some x => [("needs_more_thoughts", x)])

theorem dget_withNmt_ne (base : RawInput) (v : Option Value) (k : String)
    (hk : k ≠ "needs_more_thoughts") :
    dget (normalizeKeys (withNmt base v)) k = dget (normalizeKeys base) k := by
  cases v with
  | none => simp [withNmt]
  | some x =>
      have hc : camel_to_snake "needs_more_thoughts" = "needs_more_thoughts" := by decide
      simp [withNmt, dget, normalizeKeys, dgetAux, hc, Ne.symm hk]

theorem dgetAux_none_of_all_ne (l : List (String × Value)) (k : String)
    (h : ∀ kv ∈ l, kv.1 ≠ k) : dgetAux l k = none := by
  induction l with
  | nil => rfl
  | cons kv rest ih =>
      obtain ⟨k', x⟩ := kv
      have hk' : k' ≠ k := h (k', x) (List.mem_cons_self _ _)
      simp only [dgetAux, if_neg hk']
      exact ih fun p hp => h p (List.mem_cons_of_mem _ hp)

theorem dget_withNmt_self (base : RawInput) (v : Option Value)
    (hbase : ∀ kv ∈ base, camel_to_snake kv.1 ≠ "needs_more_thoughts") :
    dget (normalizeKeys (withNmt base v)) "needs_more_thoughts" = v := by
  have hnone : dget (normalizeKeys base) "needs_more_thoughts" = none := by
    unfold dget
    apply dgetAux_none_of_all_ne
    intro p hp
    rw [List.mem_reverse] at hp
    unfold normalizeKeys at hp
    rw [List.mem_map] at hp
    obtain ⟨kv, hkv, hpe⟩ := hp
    rw [← hpe]
    exact hbase kv hkv
  cases v with
  | none => simpa [withNmt] using hnone
  | some x =>
      have hc : camel_to_snake "needs_more_thoughts" = "needs_more_thoughts" := by decide
      simp [withNmt, dget, normalizeKeys, dgetAux, hc] at hnone ⊢

theorem parseOptBool_boolish (v : Option Value) (h : boolish v = true) :
    parseOptBool v = some (bval v) := by
  cases v with
  | none => rfl
  | some x => cases x <;> simp_all [boolish, parseOptBool, bval]

theorem blookup_scrubBranches (bs : List (String × List ThoughtData)) (k : String) :
    blookup (scrubBranches bs) k = (blookup bs k).map (List.map scrub) := by
  induction bs with
  | nil => simp [scrubBranches, blookup]
  | cons p rest ih =>
      obtain ⟨k', v⟩ := p
      by_cases hk : k' = k
      · simp [scrubBranches, blookup, hk]
      · simp [scrubBranches, blookup, hk] at ih ⊢
        exact ih

theorem scrubBranches_branchAppend (bs : List (String × List ThoughtData))
    (k : String) (w : ThoughtData) :
    scrubBranches (branchAppend bs k w) = branchAppend (scrubBranches bs) k (scrub w) := by
  cases hlk : blookup bs k with
  | none =>
      rw [branchAppend_of_none bs k w hlk]
      have hlk' : blookup (scrubBranches bs) k = none := by
        rw [blookup_scrubBranches, hlk]
        rfl
      rw [branchAppend_of_none (scrubBranches bs) k (scrub w) hlk']
      simp [scrubBranches]
  | some l =>
      rw [branchAppend_of_some bs k w l hlk]
      have hlk' : blookup (scrubBranches bs) k = some (l.map scrub) := by
        rw [blookup_scrubBranches, hlk]
        rfl
      rw [branchAppend_of_some (scrubBranches bs) k (scrub w) (l.map scrub) hlk']
      unfold scrubBranches
      rw [List.map_map, List.map_map]
      congr 1
      funext p
      obtain ⟨k', v⟩ := p
      by_cases hp : k' = k
      · simp [hp]
      · simp [hp]

theorem keys_branchAppend_eq (bs : List (String × List ThoughtData)) (k : String)
    (w₁ w₂ : ThoughtData) :
    (branchAppend bs k w₁).map Prod.fst = (branchAppend bs k w₂).map Prod.fst := by
  cases hlk : blookup bs k with
  | none => rw [keys_branchAppend_of_none bs k w₁ hlk, keys_branchAppend_of_none bs k w₂ hlk]
  | some l => rw [keys_branchAppend_of_some bs k w₁ l hlk, keys_branchAppend_of_some bs k w₂ l hlk]

theorem buildThought_nmt (d₁ d₂ : RawInput) (b₁ b₂ : Option Bool)
    (hagree : ∀ k, k ≠ "needs_more_thoughts" → dget d₁ k = dget d₂ k)
    (hn₁ : parseOptBool (dget d₁ "needs_more_thoughts") = some b₁)
    (hn₂ : parseOptBool (dget d₂ "needs_more_thoughts") = some b₂) :
    (buildThought d₁ = none ∧ buildThought d₂ = none) ∨
    (∃ t : ThoughtData,
       buildThought d₁ = some { t with needs_more_thoughts := b₁ } ∧
       buildThought d₂ = some { t with needs_more_thoughts := b₂ }) := by
  have h1 := hagree "thought" (by decide)
  have h2 := hagree "thought_number" (by decide)
  have h3 := hagree "total_thoughts" (by decide)
  have h4 := hagree "next_thought_needed" (by decide)
  have h5 := hagree "is_revision" (by decide)
  have h6 := hagree "revises_thought" (by decide)
  have h7 := hagree "branch_from_thought" (by decide)
  have h8 := hagree "branch_id" (by decide)
  unfold buildThought
  rw [h1, h2, h3, h4, h5, h6, h7, h8, hn₁, hn₂]
  cases parseReqStr (dget d₂ "thought") with
  | none => exact Or.inl ⟨rfl, rfl⟩
  | some th =>
  cases parseReqIntGe1 (dget d₂ "thought_number") with
  | none => exact Or.inl ⟨rfl, rfl⟩
  | some tn =>
  cases parseReqIntGe1 (dget d₂ "total_thoughts") with
  | none => exact Or.inl ⟨rfl, rfl⟩
  | some tt =>
  cases parseReqBool (dget d₂ "next_thought_needed") with
  | none => exact Or.inl ⟨rfl, rfl⟩
  | some ntn =>
  cases parseOptBool (dget d₂ "is_revision") with
  | none => exact Or.inl ⟨rfl, rfl⟩
  | some ir =>
  cases parseOptIntGe1 (dget d₂ "revises_thought") with
  | none => exact Or.inl ⟨rfl, rfl⟩
  | some rt =>
  cases parseOptIntGe1 (dget d₂ "branch_from_thought") with
  | none => exact Or.inl ⟨rfl, rfl⟩
  | some bft =>
  cases parseOptStr (dget d₂ "branch_id") with
  | none => exact Or.inl ⟨rfl, rfl⟩
  | some bid =>
  exact Or.inr ⟨⟨th, tn, tt, ntn, ir, rt, bft, bid, b₂⟩, rfl, rfl⟩

theorem process_ok_scrub (st : ServiceState) (i₁ i₂ : RawInput) (t : ThoughtData)
    (b₁ b₂ : Option Bool)
    (hv₁ : validate_thought_data i₁ = Except.ok { t with needs_more_thoughts := b₁ })
    (hv₂ : validate_thought_data i₂ = Except.ok { t with needs_more_thoughts := b₂ }) :
    (process_thought st i₁).2 = (process_thought st i₂).2 ∧
    scrubState (process_thought st i₁).1 = scrubState (process_thought st i₂).1 := by
  obtain ⟨th, tn, tt, ntn, ir, rt, bft, bid, nmt⟩ := t
  have hbc_norm : ∀ (X : Int) (Y : Option Bool),
      branchCond ⟨th, tn, X, ntn, ir, rt, bft, bid, Y⟩ =
        (optIntTruthy bft && optStrTruthy bid) :=
    fun X Y => rfl
  simp only [process_thought, hv₁, hv₂]
  by_cases hq : tn > tt
  · by_cases hbc : (optIntTruthy bft && optStrTruthy bid) = true
    · constructor
      · simp only [hq, if_true, ite_true, hbc_norm, hbc]
        simp [keys_branchAppend_eq st.branches (bid.getD "")
          ⟨th, tn, tn, ntn, ir, rt, bft, bid, b₁⟩ ⟨th, tn, tn, ntn, ir, rt, bft, bid, b₂⟩]
      · simp only [hq, if_true, ite_true, hbc_norm, hbc]
        simp [scrubState, scrubBranches_branchAppend, scrub]
    · constructor
      · simp [hq, hbc_norm, hbc]
      · simp [hq, hbc_norm, hbc, scrubState, scrub]
  · by_cases hbc : (optIntTruthy bft && optStrTruthy bid) = true
    · constructor
      · simp only [hq, if_false, ite_false, hbc_norm, hbc]
        simp [keys_branchAppend_eq st.branches (bid.getD "")
          ⟨th, tn, tt, ntn, ir, rt, bft, bid, b₁⟩ ⟨th, tn, tt, ntn, ir, rt, bft, bid, b₂⟩]
      · simp only [hq, if_false, ite_false, hbc_norm, hbc]
        simp [scrubState, scrubBranches_branchAppend, scrub]
    · constructor
      · simp [hq, hbc_norm, hbc]
      · simp [hq, hbc_norm, hbc, scrubState, scrub]

/-- C9: `needs_more_thoughts` is informational only.  Two submissions that
agree except for the value (or presence) of a well-typed
`needs_more_thoughts` entry get identical responses, and produce store
states identical except for that stored field (equal after erasing it); no
control decision — validation outcome, auto-correction, branch
registration — depends on it. -/
theorem needs_more_thoughts_informational (st : ServiceState) (base : RawInput)
    (v₁ v₂ : Option Value)
    (hbase : ∀ kv ∈ base, camel_to_snake kv.1 ≠ "needs_more_thoughts")
    (h₁ : boolish v₁ = true) (h₂ : boolish v₂ = true) :
    (process_thought st (withNmt base v₁)).2 = (process_thought st (withNmt base v₂)).2 ∧
    scrubState (process_thought st (withNmt base v₁)).1 =
      scrubState (process_thought st (withNmt base v₂)).1 := by
  have hagree : ∀ k, k ≠ "needs_more_thoughts" →
      dget (normalizeKeys (withNmt base v₁)) k =
        dget (normalizeKeys (withNmt base v₂)) k := by
    intro k hk
    rw [dget_withNmt_ne base v₁ k hk, dget_withNmt_ne base v₂ k hk]
  have hn₁ : parseOptBool (dget (normalizeKeys (withNmt base v₁)) "needs_more_thoughts") =
      some (bval v₁) := by
    rw [dget_withNmt_self base v₁ hbase]
    exact parseOptBool_boolish v₁ h₁
  have hn₂ : parseOptBool (dget (normalizeKeys (withNmt base v₂)) "needs_more_thoughts") =
      some (bval v₂) := by
    rw [dget_withNmt_self base v₂ hbase]
    exact parseOptBool_boolish v₂ h₂
  rcases buildThought_nmt _ _ (bval v₁) (bval v₂) hagree hn₁ hn₂ with
    ⟨hb₁, hb₂⟩ | ⟨t, hb₁, hb₂⟩
  · have hv₁ : validate_thought_data (withNmt base v₁) =
        Except.error "Invalid thought data: validation error" := by
      unfold validate_thought_data
      rw [hb₁]
    have hv₂ : validate_thought_data (withNmt base v₂) =
        Except.error "Invalid thought data: validation error" := by
      unfold validate_thought_data
      rw [hb₂]
    constructor
    · simp [process_thought, hv₁, hv₂]
    · simp [process_thought, hv₁, hv₂]
  · have hv₁ : validate_thought_data (withNmt base v₁) =
        Except.ok { t with needs_more_thoughts := bval v₁ } := by
      unfold validate_thought_data
      rw [hb₁]
    have hv₂ : validate_thought_data (withNmt base v₂) =
        Except.ok { t with needs_more_thoughts := bval v₂ } := by
      unfold validate_thought_data
      rw [hb₂]
    exact process_ok_scrub st _ _ t (bval v₁) (bval v₂) hv₁ hv₂

/-- Witness for C9: `inpPlain` with `needs_more_thoughts = true` versus with
the field absent. -/
theorem needs_more_thoughts_informational_witness :
    (process_thought initState (withNmt inpPlain (some (Value.vBool true)))).2 =
      (process_thought initState (withNmt inpPlain none)).2 ∧
    scrubState (process_thought initState (withNmt inpPlain (some (Value.vBool true)))).1 =
      scrubState (process_thought initState (withNmt inpPlain none)).1 :=
  needs_more_thoughts_informational initState inpPlain (some (Value.vBool true)) none
    (by decide) (by rfl) (by rfl)
